import Mathlib

/-!
Verification of the flatten/unflatten core of `scripts/json_flatten.py`.

The JSON-like tree value is a tagged union (`JValue`); Python dicts become
ordered association lists with unique keys, and dict assignment / `update`
become `dinsert` / `dupdate`, which overwrite in place (keeping the key's
original position) or append.  `flatten` and `unflatten` are translated
line by line from the source; `process_file` is the in-memory dispatch of
the CLI helper (the file I/O around it is not modelled).  Places where the
Python code can raise are modelled with `Option` / `Except`.
-/

/-- A JSON-like value: the dynamic trees the Python module manipulates. -/
inductive JValue where
  | null
  | bool (b : Bool)
  | num (n : Int)
  | str (s : String)
  | arr (items : List JValue)
  | obj (fields : List (String × JValue))

/-- `isinstance(v, dict)` -/
def JValue.isObj : JValue → Bool
  | .obj _ => true
  | _ => false

/-- `isinstance(v, list)` -/
def JValue.isArr : JValue → Bool
  | .arr _ => true
  | _ => false

/-- A scalar is anything that is neither a dict nor a list. -/
def JValue.isScalar (v : JValue) : Bool := !v.isObj && !v.isArr

/-- Python dict assignment `m[k] = v` on an insertion-ordered dict:
overwrite in place when the key is present, append otherwise. -/
def dinsert : List (String × JValue) → String → JValue → List (String × JValue)
  | [], k, v => [(k, v)]
  | (k1, v1) :: rest, k, v =>
    if k1 = k then (k, v) :: rest else (k1, v1) :: dinsert rest k v

/-- Python `m.update(n)`: assign every entry of `n` into `m`, in order. -/
def dupdate (m n : List (String × JValue)) : List (String × JValue) :=
  n.foldl (fun acc p => dinsert acc p.1 p.2) m

/-- Python dict lookup `m[k]` (as an `Option`; keys are unique). -/
def lookupD : List (String × JValue) → String → Option JValue
  | [], _ => none
  | (k1, v1) :: rest, k => if k1 = k then some v1 else lookupD rest k

-- Node-count measures used only for the termination of `flatten`.
mutual
def JValue.jsize : JValue → Nat
  | .null => 1
  | .bool _ => 1
  | .num _ => 1
  | .str _ => 1
  | .arr items => 1 + jsizeList items
  | .obj fields => 1 + jsizeFields fields

def jsizeList : List JValue → Nat
  | [] => 0
  | x :: xs => 1 + x.jsize + jsizeList xs

def jsizeFields : List (String × JValue) → Nat
  | [] => 0
  | (_, v) :: fs => 1 + v.jsize + jsizeFields fs
end

@[simp] theorem jsize_null : JValue.null.jsize = 1 := by simp [JValue.jsize]
@[simp] theorem jsize_bool (b : Bool) : (JValue.bool b).jsize = 1 := by simp [JValue.jsize]
@[simp] theorem jsize_num (n : Int) : (JValue.num n).jsize = 1 := by simp [JValue.jsize]
@[simp] theorem jsize_str (s : String) : (JValue.str s).jsize = 1 := by simp [JValue.jsize]
@[simp] theorem jsize_arr (items : List JValue) :
    (JValue.arr items).jsize = 1 + jsizeList items := by simp [JValue.jsize]
@[simp] theorem jsize_obj (fields : List (String × JValue)) :
    (JValue.obj fields).jsize = 1 + jsizeFields fields := by simp [JValue.jsize]
@[simp] theorem jsizeList_nil : jsizeList [] = 0 := by simp [jsizeList]
@[simp] theorem jsizeList_cons (x : JValue) (xs : List JValue) :
    jsizeList (x :: xs) = 1 + x.jsize + jsizeList xs := by simp [jsizeList]
@[simp] theorem jsizeFields_nil : jsizeFields [] = 0 := by simp [jsizeFields]
@[simp] theorem jsizeFields_cons (k : String) (v : JValue) (fs : List (String × JValue)) :
    jsizeFields ((k, v) :: fs) = 1 + v.jsize + jsizeFields fs := by simp [jsizeFields]

theorem jsize_pos (v : JValue) : 1 ≤ v.jsize := by
  cases v <;> simp

/-- `max_depth is not None and current_depth >= max_depth` -/
def atMaxDepth : Option Int → Nat → Bool
  | none, _ => false
  | some m, d => m ≤ (d : Int)

mutual
/-- The body of `flatten`: the `for key, value in data.items()` loop,
threading the insertion-ordered `result` dict as `acc`.
Mirrors `json_flatten.flatten` lines 9-44. -/
def flattenObjAcc : List (String × JValue) → String → String → Option Int → Nat →
    List (String × JValue) → List (String × JValue)
  | [], _, _, _, _, acc => acc
  | (k, v) :: rest, sep, pre, md, d, acc =>
    let newKey := if pre = "" then k else pre ++ sep ++ k
    if atMaxDepth md d then
      flattenObjAcc rest sep pre md d (dinsert acc newKey v)
    else
      match v with
      | .obj vfs =>
        flattenObjAcc rest sep pre md d
          (dupdate acc (flattenObjAcc vfs sep newKey md (d + 1) []))
      | .arr xs =>
        flattenObjAcc rest sep pre md d (flattenListAcc xs 0 sep newKey md d acc)
      | v =>
        flattenObjAcc rest sep pre md d (dinsert acc newKey v)
termination_by fs _ _ _ _ _ => 2 * jsizeFields fs
decreasing_by
  all_goals simp
  all_goals omega

/-- The inner `for i, item in enumerate(value)` loop of `flatten`, for a
list value whose `new_key` is `newKey`.  A dict item recurses with prefix
`list_key`; a list item recurses on the single-entry dict `{str(i): item}`
with prefix `newKey`; a scalar item is emitted at `list_key`. -/
def flattenListAcc : List JValue → Nat → String → String → Option Int → Nat →
    List (String × JValue) → List (String × JValue)
  | [], _, _, _, _, _, acc => acc
  | item :: rest, i, sep, newKey, md, d, acc =>
    let listKey := newKey ++ sep ++ toString i
    match item with
    | .obj ifs =>
      flattenListAcc rest (i + 1) sep newKey md d
        (dupdate acc (flattenObjAcc ifs sep listKey md (d + 1) []))
    | .arr ys =>
      flattenListAcc rest (i + 1) sep newKey md d
        (dupdate acc (flattenObjAcc [(toString i, JValue.arr ys)] sep newKey md (d + 1) []))
    | item =>
      flattenListAcc rest (i + 1) sep newKey md d (dinsert acc listKey item)
termination_by items _ _ _ _ _ _ => 2 * jsizeList items + 1
decreasing_by
  all_goals simp
  all_goals omega
end

/-- `flatten(data, separator, max_depth=max_depth)`: the entry point, with
`prefix = ""` and `current_depth = 0` as in the Python defaults. -/
def flatten (data : List (String × JValue)) (separator : String)
    (max_depth : Option Int) : List (String × JValue) :=
  flattenObjAcc data separator "" max_depth 0 []

/-- Python `s.isdigit()` for ASCII strings: nonempty and all digits. -/
def pyIsDigit (s : String) : Bool := !s.data.isEmpty && s.data.all Char.isDigit

/-- Python `int(s)` for a digit-only string. -/
def pyToNat (s : String) : Nat :=
  s.data.foldl (fun n c => n * 10 + (c.toNat - '0'.toNat)) 0

/-- One splitting step of Python `key.split(separator)`, on character lists.
`fuel` only bounds the recursion depth; the wrapper passes `cs.length + 1`,
which is enough fuel that the middle branch is never taken (every step
consumes at least one character). -/
def splitFuel (sep : List Char) : Nat → List Char → List Char → List (List Char)
  | _, [], acc => [acc.reverse]
  | 0, cs, acc => [acc.reverse ++ cs]
  | n + 1, c :: cs, acc =>
    if !sep.isEmpty && sep.isPrefixOf (c :: cs) then
      acc.reverse :: splitFuel sep n (List.drop sep.length (c :: cs)) []
    else
      splitFuel sep n cs (c :: acc)

/-- Python `key.split(separator)` for a nonempty separator. -/
def pySplit (s sep : String) : List String :=
  (splitFuel sep.data (s.data.length + 1) s.data []).map String.mk

/-- The one-ahead lookahead of `unflatten`: with `rest` the parts after the
current one, `next_part = parts[i+1] if i + 1 < len(parts) - 1 else None`
means the next part is consulted only when it is not the final part. -/
def isNextIndex : List String → Bool
  | q :: _ :: _ => pyIsDigit q
  | _ => false

/-- `{} if not is_next_index else []`: the child container created during
the walk, and also the filler appended by the intermediate padding loop. -/
def newChild (nii : Bool) : JValue :=
  if nii then JValue.arr [] else JValue.obj []

/-- The intermediate padding loop
`while len(current) <= index: current.append({} if not is_next_index else [])`. -/
def padFill (nii : Bool) (xs : List JValue) (index : Nat) : List JValue :=
  xs ++ List.replicate (index + 1 - xs.length) (newChild nii)

/-- The coarse-kind fix-up of `current[index]` after padding:
`if is_next_index and not isinstance(current[index], list): current[index] = []`,
`elif not is_next_index and not isinstance(current[index], dict): current[index] = {}`. -/
def coerceAt (nii : Bool) (e : JValue) : JValue :=
  if nii && !e.isArr then JValue.arr []
  else if !nii && !e.isObj then JValue.obj []
  else e

/-- The walk of `unflatten` for one flat entry: `cur` is the container the
Python variable `current` aliases, `ps` the remaining parts of the key and
`v` the entry's value.  Returns the updated subtree together with `true`
(entry placed) or `false` (a `return result` was executed: the structural
conflict abort).  `none` models the Python code raising `TypeError`, which
happens when a non-digit intermediate part is looked up in a non-dict.
Mirrors `json_flatten.unflatten` lines 50-85. -/
def unflattenGo : JValue → List String → JValue → Option (JValue × Bool)
  | cur, [], _ => some (cur, true)
  | cur, [last], v =>
    if pyIsDigit last then
      match cur with
      | .arr xs =>
        let index := pyToNat last
        let padded := xs ++ List.replicate (index + 1 - xs.length) JValue.null
        some (.arr (padded.set index v), true)
      | cur => some (cur, false)
    else
      match cur with
      | .obj fs => some (.obj (dinsert fs last v), true)
      | cur => some (cur, false)
  | cur, part :: rest, v =>
    let nii := isNextIndex rest
    if pyIsDigit part then
      match cur with
      | .arr xs =>
        let index := pyToNat part
        let padded := padFill nii xs index
        let e2 := coerceAt nii (padded.getD index JValue.null)
        match unflattenGo e2 rest v with
        | none => none
        | some (cf, ok) => some (.arr (padded.set index cf), ok)
      | cur => some (cur, false)
    else
      match cur with
      | .obj fs =>
        match lookupD fs part with
        | some child =>
          match unflattenGo child rest v with
          | none => none
          | some (cf, ok) => some (.obj (dinsert fs part cf), ok)
        | none =>
          match unflattenGo (newChild nii) rest v with
          | none => none
          | some (cf, ok) => some (.obj (dinsert fs part cf), ok)
      | _ => none

/-- The `for key, value in data.items()` loop of `unflatten`.  An entry
whose walk ends in `return result` ends the whole call with the root as
mutated so far; remaining entries are not processed. -/
def unflattenLoop (sep : String) : List (String × JValue) → JValue → Option JValue
  | [], root => some root
  | (k, v) :: rest, root =>
    match unflattenGo root (pySplit k sep) v with
    | none => none
    | some (root2, true) => unflattenLoop sep rest root2
    | some (root2, false) => some root2

/-- `unflatten(data, separator)`.  `none` models the call raising: Python
raises `ValueError` for an empty separator (inside `str.split`) and can
raise `TypeError` during the walk; otherwise the returned tree is given. -/
def unflatten (data : List (String × JValue)) (sep : String) : Option JValue :=
  if sep = "" then none
  else unflattenLoop sep data (JValue.obj [])

/-- The mode dispatch of `process_file` (lines 90-110), minus the JSON file
reading/writing around it: `Except.error` models a raised exception
surfacing to the caller. -/
def process_file (data : JValue) (mode : String) (separator : String)
    (max_depth : Option Int) : Except String JValue :=
  if mode = "flatten" then
    match data with
    | .obj fs => .ok (.obj (flatten fs separator max_depth))
    | _ => .error "Input must be a JSON object for flatten mode"
  else if mode = "unflatten" then
    match data with
    | .obj fs =>
      match unflatten fs separator with
      | some r => .ok r
      | none => .error "TypeError"
    | _ => .error "Input must be a JSON object for unflatten mode"
  else .error ("Unknown mode: " ++ mode)

/-! ### Helper lemmas -/

theorem atMaxDepth_none (d : Nat) : atMaxDepth none d = false := rfl

theorem dinsert_of_not_mem (acc : List (String × JValue)) (k : String) (v : JValue)
    (h : k ∉ acc.map Prod.fst) : dinsert acc k v = acc ++ [(k, v)] := by
  induction acc with
  | nil => rfl
  | cons p rest ih =>
    obtain ⟨k1, v1⟩ := p
    simp only [List.map_cons, List.mem_cons] at h
    push_neg at h
    simp only [dinsert, List.cons_append]
    rw [if_neg (fun hc => h.1 hc.symm), ih h.2]

/-! ### C1, C2, C3: unflatten drops digit-final entries (code bug) -/

/-- C1: the round-trip claim fails on the code.  `flatten` turns
`{"items": ["a","b","c"]}` into `{"items.0": "a", "items.1": "b",
"items.2": "c"}`, but `unflatten` of that flat mapping returns
`{"items": {}}`: the one-ahead lookahead never consults the final part, so
the `"items"` child is created as a dict and the digit-only final segment
hits the conflict abort, which also ends the whole call. -/
theorem flatten_unflatten_roundtrip_fails :
    flatten [("items", JValue.arr [JValue.str "a", JValue.str "b", JValue.str "c"])] "." none
      = [("items.0", JValue.str "a"), ("items.1", JValue.str "b"), ("items.2", JValue.str "c")]
    ∧ unflatten [("items.0", JValue.str "a"), ("items.1", JValue.str "b"),
        ("items.2", JValue.str "c")] "."
      = some (JValue.obj [("items", JValue.obj [])])
    ∧ JValue.obj [("items", JValue.obj [])]
      ≠ JValue.obj [("items", JValue.arr [JValue.str "a", JValue.str "b", JValue.str "c"])] := by
  refine ⟨?_, rfl, by simp⟩
  simp [flatten, flattenObjAcc, flattenListAcc, dinsert, dupdate, atMaxDepth,
    show toString (0 : Nat) = "0" from rfl, show toString (1 : Nat) = "1" from rfl,
    show toString (2 : Nat) = "2" from rfl]

/-- C2: on the well-formed output of `flatten` for `{"items": ["a"]}` the
abort path IS taken, and the returned result includes the conflicting
entry's own partial effect (`{"items": {}}`); moreover `unflatten` can
raise (modelled as `none`) when a non-digit intermediate part is reached
with a scalar as the current container. -/
theorem unflatten_abort_path_on_flatten_output :
    flatten [("items", JValue.arr [JValue.str "a"])] "." none = [("items.0", JValue.str "a")]
    ∧ unflatten [("items.0", JValue.str "a")] "." = some (JValue.obj [("items", JValue.obj [])])
    ∧ unflatten [("a.b", JValue.num 1), ("a.b.c.d", JValue.num 2)] "." = none := by
  refine ⟨?_, rfl, rfl⟩
  simp [flatten, flattenObjAcc, flattenListAcc, dinsert, dupdate, atMaxDepth,
    show toString (0 : Nat) = "0" from rfl]

/-- C3: `unflatten({"items.0": "a", "items.2": "c"})` does not rebuild the
gapped list `["a", null, "c"]`; the first entry already aborts the call and
leaves `{"items": {}}`. -/
theorem unflatten_index_gap_drops_entries :
    unflatten [("items.0", JValue.str "a"), ("items.2", JValue.str "c")] "."
      = some (JValue.obj [("items", JValue.obj [])])
    ∧ JValue.obj [("items", JValue.obj [])]
      ≠ JValue.obj [("items", JValue.arr [JValue.str "a", JValue.null, JValue.str "c"])] :=
  ⟨rfl, by simp⟩

/-! ### C4: nested-list flattening reuses the outer newKey -/

/-- C4: a list element that is itself a list is flattened by recursing on
the single-entry dict `{str(i): element}` with the outer `newKey` (not
`listKey`) as prefix, so the nested index becomes the final differentiating
segment; concretely `flatten({"a": [[1,2],[3,4]]})` yields
`{"a.0.0": 1, "a.0.1": 2, "a.1.0": 3, "a.1.1": 4}`. -/
theorem flatten_nested_list_uses_outer_new_key :
    (∀ (ys rest : List JValue) (i : Nat) (sep newKey : String) (md : Option Int) (d : Nat)
        (acc : List (String × JValue)),
      flattenListAcc (JValue.arr ys :: rest) i sep newKey md d acc
        = flattenListAcc rest (i + 1) sep newKey md d
            (dupdate acc (flattenObjAcc [(toString i, JValue.arr ys)] sep newKey md (d + 1) [])))
    ∧ flatten [("a", JValue.arr [JValue.arr [JValue.num 1, JValue.num 2],
          JValue.arr [JValue.num 3, JValue.num 4]])] "." none
      = [("a.0.0", JValue.num 1), ("a.0.1", JValue.num 2),
         ("a.1.0", JValue.num 3), ("a.1.1", JValue.num 4)] := by
  constructor
  · intro ys rest i sep newKey md d acc
    rw [flattenListAcc.eq_def]
  · simp [flatten, flattenObjAcc, flattenListAcc, dinsert, dupdate, atMaxDepth,
      show toString (0 : Nat) = "0" from rfl, show toString (1 : Nat) = "1" from rfl]

/-! ### C5: depth limiting emits values verbatim -/

/-- C5: once `max_depth` is set and the current depth has reached it, the
entry is emitted as `newKey -> value` verbatim with no recursion, even when
the value is a nested structure; concretely
`flatten({"a":{"b":{"c":{"d":"v"}}}}, max_depth=1) == {"a.b": {"c": {"d": "v"}}}`. -/
theorem flatten_at_max_depth_emits_verbatim :
    (∀ (k : String) (v : JValue) (rest : List (String × JValue)) (sep pre : String)
        (m : Int) (d : Nat) (acc : List (String × JValue)),
      m ≤ (d : Int) →
      flattenObjAcc ((k, v) :: rest) sep pre (some m) d acc
        = flattenObjAcc rest sep pre (some m) d
            (dinsert acc (if pre = "" then k else pre ++ sep ++ k) v))
    ∧ flatten [("a", JValue.obj [("b", JValue.obj [("c", JValue.obj [("d", JValue.str "v")])])])]
        "." (some 1)
      = [("a.b", JValue.obj [("c", JValue.obj [("d", JValue.str "v")])])] := by
  constructor
  · intro k v rest sep pre m d acc h
    have hm : atMaxDepth (some m) d = true := by
      simp only [atMaxDepth, decide_eq_true_eq]
      exact h
    rw [flattenObjAcc.eq_def]
    simp only [hm, if_true]
  · simp [flatten, flattenObjAcc, flattenListAcc, dinsert, dupdate, atMaxDepth]

/-- C5 witness: the general branch equation applied at a concrete input. -/
theorem flatten_at_max_depth_emits_verbatim_witness :
    flattenObjAcc [("a", JValue.null)] "." "" (some 0) 0 []
      = flattenObjAcc [] "." "" (some 0) 0
          (dinsert [] (if ("" : String) = "" then "a" else "" ++ "." ++ "a") JValue.null) :=
  flatten_at_max_depth_emits_verbatim.1 "a" JValue.null [] "." "" 0 0 [] (by decide)

/-! ### C7: flatten mode rejects a non-Mapping root -/

/-- C7: the flatten operation called on a non-Mapping root signals the
input-shape error, which is surfaced to the caller and not recovered. -/
theorem process_file_flatten_rejects_non_mapping :
    ∀ (data : JValue) (sep : String) (md : Option Int),
      data.isObj = false →
      process_file data "flatten" sep md
        = Except.error "Input must be a JSON object for flatten mode" := by
  intro data sep md h
  cases data <;> simp_all [process_file, JValue.isObj]

/-- C7 witness: flattening the bare list `[1, 2, 3]` (the repository's own
test input) errors out. -/
theorem process_file_flatten_rejects_non_mapping_witness :
    process_file (JValue.arr [JValue.num 1, JValue.num 2, JValue.num 3]) "flatten" "." none
      = Except.error "Input must be a JSON object for flatten mode" :=
  process_file_flatten_rejects_non_mapping
    (JValue.arr [JValue.num 1, JValue.num 2, JValue.num 3]) "." none rfl

/-! ### C10: max_depth = 0 is the identity -/

theorem flattenObjAcc_depth_zero : ∀ (fs : List (String × JValue)) (sep : String)
    (acc : List (String × JValue)), (fs.map Prod.fst).Nodup →
    (∀ k ∈ fs.map Prod.fst, k ∉ acc.map Prod.fst) →
    flattenObjAcc fs sep "" (some 0) 0 acc = acc ++ fs := by
  intro fs sep
  induction fs with
  | nil =>
    intro acc _ _
    rw [flattenObjAcc.eq_def]
    simp
  | cons p rest ih =>
    obtain ⟨k, v⟩ := p
    intro acc hnd hdisj
    simp only [List.map_cons, List.nodup_cons] at hnd
    have hk : k ∉ acc.map Prod.fst := hdisj k (by simp)
    have hstep : atMaxDepth (some 0) 0 = true := rfl
    rw [flattenObjAcc.eq_def]
    simp only [hstep, if_true, reduceIte]
    rw [dinsert_of_not_mem acc k v hk]
    rw [ih (acc ++ [(k, v)]) hnd.2 ?side]
    · simp
    case side =>
      intro k2 hk2
      simp only [List.map_append, List.map_cons, List.map_nil, List.mem_append,
        List.mem_singleton]
      push_neg
      exact ⟨fun hc => (hdisj k2 (by simp [hk2])) hc, fun hc => hnd.1 (hc ▸ hk2)⟩

/-- C10: with `max_depth = 0` every top-level entry is emitted verbatim, so
`flatten` returns the input mapping unchanged. -/
theorem flatten_max_depth_zero_identity :
    ∀ (data : List (String × JValue)) (sep : String),
      (data.map Prod.fst).Nodup → flatten data sep (some 0) = data := by
  intro data sep h
  have := flattenObjAcc_depth_zero data sep [] h (by simp)
  simpa [flatten] using this

/-- C10 witness: the identity at a concrete two-entry mapping. -/
theorem flatten_max_depth_zero_identity_witness :
    flatten [("a", JValue.null), ("b", JValue.num 1)] "." (some 0)
      = [("a", JValue.null), ("b", JValue.num 1)] :=
  flatten_max_depth_zero_identity [("a", JValue.null), ("b", JValue.num 1)] "." (by simp)

/-! ### C8: the result of unflatten is a Mapping at the root -/

theorem unflattenGo_shape (cur : JValue) (ps : List String) (v r : JValue) (ok : Bool)
    (h : unflattenGo cur ps v = some (r, ok)) :
    r.isArr = cur.isArr ∧ r.isObj = cur.isObj := by
  match ps with
  | [] =>
    simp only [unflattenGo, Option.some.injEq, Prod.mk.injEq] at h
    simp [← h.1]
  | [last] =>
    by_cases hd : pyIsDigit last <;> cases cur <;>
      simp [unflattenGo, hd] at h <;>
      (obtain ⟨h1, h2⟩ := h; subst h1; simp [JValue.isArr, JValue.isObj])
  | p :: q :: rest2 =>
    by_cases hd : pyIsDigit p
    · cases cur
      all_goals try (simp [unflattenGo, hd] at h; obtain ⟨h1, h2⟩ := h; subst h1; exact ⟨rfl, rfl⟩)
      -- the remaining case: `cur = JValue.arr xs`
      rename_i xs
      simp only [unflattenGo, hd, if_true] at h
      split at h
      · simp at h
      · rename_i cf ok2 heq
        simp only [Option.some.injEq, Prod.mk.injEq] at h
        obtain ⟨h1, h2⟩ := h
        subst h1
        simp [JValue.isArr, JValue.isObj]
    · cases cur
      all_goals try (simp [unflattenGo, hd] at h; done)
      -- the remaining case: `cur = JValue.obj fs`
      rename_i fs
      simp only [unflattenGo, hd, Bool.false_eq_true, if_false] at h
      rcases hl : lookupD fs p with _ | child
      · simp only [hl] at h
        rcases hrec : unflattenGo (newChild (isNextIndex (q :: rest2))) (q :: rest2) v
          with _ | ⟨cf, ok2⟩ <;> simp only [hrec] at h
        · exact absurd h (by simp)
        · simp only [Option.some.injEq, Prod.mk.injEq] at h
          obtain ⟨h1, h2⟩ := h
          subst h1
          exact ⟨rfl, rfl⟩
      · simp only [hl] at h
        rcases hrec : unflattenGo child (q :: rest2) v with _ | ⟨cf, ok2⟩ <;>
          simp only [hrec] at h
        · exact absurd h (by simp)
        · simp only [Option.some.injEq, Prod.mk.injEq] at h
          obtain ⟨h1, h2⟩ := h
          subst h1
          exact ⟨rfl, rfl⟩

theorem unflattenLoop_obj (data : List (String × JValue)) :
    ∀ (fs : List (String × JValue)) (sep : String) (r : JValue),
      unflattenLoop sep data (JValue.obj fs) = some r → ∃ gs, r = JValue.obj gs := by
  induction data with
  | nil =>
    intro fs sep r h
    simp only [unflattenLoop, Option.some.injEq] at h
    exact ⟨fs, h.symm⟩
  | cons e rest ih =>
    obtain ⟨k, v⟩ := e
    intro fs sep r h
    simp only [unflattenLoop] at h
    rcases hg : unflattenGo (JValue.obj fs) (pySplit k sep) v with _ | ⟨root2, ok⟩
    · simp only [hg] at h
      exact absurd h (by simp)
    · have hshape := unflattenGo_shape _ _ _ _ _ hg
      cases root2 <;> simp [JValue.isArr, JValue.isObj] at hshape
      rename_i gs2
      cases ok
      · simp only [hg, Option.some.injEq] at h
        exact ⟨gs2, h.symm⟩
      · simp only [hg] at h
        exact ih gs2 sep r h

/-- C8: whenever `unflatten` returns (both on normal completion and on
every structural-conflict early return) the root of the result is a
Mapping, never a Sequence or a scalar: the Python `result` variable is
created as a dict and is never rebound. -/
theorem unflatten_root_is_mapping :
    ∀ (data : List (String × JValue)) (sep : String) (r : JValue),
      unflatten data sep = some r → ∃ fs, r = JValue.obj fs := by
  intro data sep r h
  by_cases hs : sep = ""
  · simp [unflatten, hs] at h
  · unfold unflatten at h
    rw [if_neg hs] at h
    exact unflattenLoop_obj data [] sep r h

/-- C8 witness: the root-shape theorem applied to a concrete call. -/
theorem unflatten_root_is_mapping_witness :
    ∃ fs, JValue.obj [("a", JValue.num 1)] = JValue.obj fs :=
  unflatten_root_is_mapping [("a", JValue.num 1)] "." (JValue.obj [("a", JValue.num 1)]) rfl

/-! ### C9: without max_depth, all flatten output values are scalars -/

def scalarVals (l : List (String × JValue)) : Prop :=
  ∀ p ∈ l, JValue.isScalar p.2 = true

theorem scalarVals_nil : scalarVals [] := by
  intro p hp
  cases hp

theorem scalarVals_dinsert : ∀ (acc : List (String × JValue)) (k : String) (v : JValue),
    scalarVals acc → v.isScalar = true → scalarVals (dinsert acc k v) := by
  intro acc
  induction acc with
  | nil =>
    intro k v _ hv p hp
    simp only [dinsert, List.mem_singleton] at hp
    subst hp
    exact hv
  | cons e rest ih =>
    obtain ⟨k1, v1⟩ := e
    intro k v ha hv p hp
    simp only [dinsert] at hp
    by_cases hk : k1 = k
    · rw [if_pos hk] at hp
      rcases List.mem_cons.mp hp with h1 | h1
      · subst h1
        exact hv
      · exact ha p (List.mem_cons_of_mem _ h1)
    · rw [if_neg hk] at hp
      rcases List.mem_cons.mp hp with h1 | h1
      · subst h1
        exact ha (k1, v1) (by simp)
      · exact ih k v (fun q hq => ha q (List.mem_cons_of_mem _ hq)) hv p h1

theorem scalarVals_dupdate : ∀ (n m : List (String × JValue)),
    scalarVals m → scalarVals n → scalarVals (dupdate m n) := by
  intro n
  induction n with
  | nil => intro m hm _; exact hm
  | cons e rest ih =>
    obtain ⟨k, v⟩ := e
    intro m hm hn
    have hv : v.isScalar = true := hn (k, v) (by simp)
    have hrest : scalarVals rest := fun q hq => hn q (List.mem_cons_of_mem _ hq)
    exact ih (dinsert m k v) (scalarVals_dinsert m k v hm hv) hrest

theorem flattenObjAcc_scalar : ∀ (fs : List (String × JValue)) (sep pre : String)
    (md : Option Int) (d : Nat) (acc : List (String × JValue)),
    md = none → scalarVals acc → scalarVals (flattenObjAcc fs sep pre md d acc) := by
  apply flattenObjAcc.induct
    (fun fs sep pre md d acc =>
      md = none → scalarVals acc → scalarVals (flattenObjAcc fs sep pre md d acc))
    (fun items i sep newKey md d acc =>
      md = none → scalarVals acc → scalarVals (flattenListAcc items i sep newKey md d acc))
  · intro sep pre md d acc _ hacc
    rw [flattenObjAcc.eq_def]
    exact hacc
  · intro k v rest sep pre md d acc newKey hmax ih hmd hacc
    subst hmd
    simp [atMaxDepth] at hmax
  · intro k rest sep pre md d acc newKey hmax vfs ih1 ih1b ih2 hmd hacc
    subst hmd
    rw [flattenObjAcc.eq_def]
    simp only [atMaxDepth_none, Bool.false_eq_true, if_false]
    exact ih2 rfl (scalarVals_dupdate _ acc hacc (ih1 rfl scalarVals_nil))
  · intro k rest sep pre md d acc newKey hmax xs ihl ihlb ih2 hmd hacc
    subst hmd
    rw [flattenObjAcc.eq_def]
    simp only [atMaxDepth_none, Bool.false_eq_true, if_false]
    exact ih2 rfl (ihl rfl hacc)
  · intro k rest sep pre md d acc newKey hmax v hno hna ih hmd hacc
    subst hmd
    rw [flattenObjAcc.eq_def]
    simp only [atMaxDepth_none, Bool.false_eq_true, if_false]
    cases v
    case obj vfs => exact (hno vfs rfl).elim
    case arr xs => exact (hna xs rfl).elim
    all_goals exact ih rfl (scalarVals_dinsert acc _ _ hacc rfl)
  · intro i sep newKey md d acc _ hacc
    rw [flattenListAcc.eq_def]
    exact hacc
  · intro rest i sep newKey md d acc listKey vfs ih1 ih1b ih2 hmd hacc
    subst hmd
    rw [flattenListAcc.eq_def]
    exact ih2 rfl (scalarVals_dupdate _ acc hacc (ih1 rfl scalarVals_nil))
  · intro rest i sep newKey md d acc xs ih1 ih2 hmd hacc
    subst hmd
    rw [flattenListAcc.eq_def]
    exact ih2 rfl (scalarVals_dupdate _ acc hacc (ih1 rfl scalarVals_nil))
  · intro rest i sep newKey md d acc listKey v hno hna ih hmd hacc
    subst hmd
    rw [flattenListAcc.eq_def]
    cases v
    case obj vfs => exact (hno vfs rfl).elim
    case arr xs => exact (hna xs rfl).elim
    all_goals exact ih rfl (scalarVals_dinsert acc _ _ hacc rfl)

/-- C9: with `max_depth` absent every value in the flat mapping returned
by `flatten` is a scalar (Null, Boolean, Number or String); no Mapping or
Sequence ever appears as an output value. -/
theorem flatten_values_scalar :
    ∀ (data : List (String × JValue)) (sep : String) (p : String × JValue),
      p ∈ flatten data sep none → p.2.isScalar = true := by
  intro data sep p hp
  exact flattenObjAcc_scalar data sep "" none 0 [] rfl scalarVals_nil p hp

theorem coerceAt_true_isArr (e : JValue) : (coerceAt true e).isArr = true := by
  cases e <;> simp [coerceAt, JValue.isArr, JValue.isObj]

theorem coerceAt_false_isObj (e : JValue) : (coerceAt false e).isObj = true := by
  cases e <;> simp [coerceAt, JValue.isArr, JValue.isObj]

/-- C6 (amended): during the intermediate walk, a digit-only segment with
index k that targets a Sequence shorter than k+1 elements grows it to
exactly k+1 elements, padding the gap with `newChild nextIsIndex` (an empty
Mapping, or an empty Sequence when `nextIsIndex`) -- not with Null -- and
the element at index k is then a Sequence or a Mapping according to the
one-ahead lookahead `nextIsIndex`. -/
theorem unflatten_digit_segment_grows_sequence
    (xs : List JValue) (p q : String) (rest2 : List String) (v r : JValue) (ok : Bool)
    (hd : pyIsDigit p = true) (hlen : xs.length ≤ pyToNat p)
    (h : unflattenGo (JValue.arr xs) (p :: q :: rest2) v = some (r, ok)) :
    ∃ ys, r = JValue.arr ys ∧ ys.length = pyToNat p + 1 ∧
      (∀ j, xs.length ≤ j → j < pyToNat p →
        ys.getD j JValue.null = newChild (isNextIndex (q :: rest2))) ∧
      (if isNextIndex (q :: rest2) then (ys.getD (pyToNat p) JValue.null).isArr = true
       else (ys.getD (pyToNat p) JValue.null).isObj = true) := by
  simp only [unflattenGo, hd, if_true] at h
  split at h
  · simp at h
  · rename_i cf ok2 heq
    simp only [Option.some.injEq, Prod.mk.injEq] at h
    obtain ⟨h1, h2⟩ := h
    subst h1
    have hplen : (padFill (isNextIndex (q :: rest2)) xs (pyToNat p)).length = pyToNat p + 1 := by
      simp only [padFill, List.length_append, List.length_replicate]
      omega
    refine ⟨(padFill (isNextIndex (q :: rest2)) xs (pyToNat p)).set (pyToNat p) cf, rfl,
      ?_, ?_, ?_⟩
    · rw [List.length_set, hplen]
    · intro j hj1 hj2
      rw [List.getD_eq_getElem?_getD, List.getElem?_set_ne (by omega)]
      simp only [padFill]
      rw [List.getElem?_append_right hj1, List.getElem?_replicate]
      rw [if_pos (by omega)]
      rfl
    · have hcf := unflattenGo_shape _ _ _ _ _ heq
      have hk : ((padFill (isNextIndex (q :: rest2)) xs (pyToNat p)).set (pyToNat p) cf).getD
          (pyToNat p) JValue.null = cf := by
        rw [List.getD_eq_getElem?_getD, List.getElem?_set_eq_of_lt cf (by rw [hplen]; omega)]
        rfl
      rw [hk]
      cases hn : isNextIndex (q :: rest2)
      · rw [hn] at hcf
        simp only [Bool.false_eq_true, if_false]
        rw [hcf.2]
        exact coerceAt_false_isObj _
      · rw [hn] at hcf
        simp only [if_true]
        rw [hcf.1]
        exact coerceAt_true_isArr _

/-- C6 witness: the padding theorem applied to the walk of key `"2.b"`
into an empty Sequence. -/
theorem unflatten_digit_segment_grows_sequence_witness :
    ∃ ys, JValue.arr [JValue.obj [], JValue.obj [], JValue.obj [("b", JValue.num 5)]]
        = JValue.arr ys ∧ ys.length = pyToNat "2" + 1 ∧
      (∀ j, ([] : List JValue).length ≤ j → j < pyToNat "2" →
        ys.getD j JValue.null = newChild (isNextIndex ["b"])) ∧
      (if isNextIndex ["b"] then (ys.getD (pyToNat "2") JValue.null).isArr = true
       else (ys.getD (pyToNat "2") JValue.null).isObj = true) :=
  unflatten_digit_segment_grows_sequence [] "2" "b" [] (JValue.num 5)
    (JValue.arr [JValue.obj [], JValue.obj [], JValue.obj [("b", JValue.num 5)]]) true
    rfl (Nat.zero_le _) rfl

/-- C6 counterexample: the claim says the gap below index 2 is Null-padded,
but the code pads it with an empty Mapping: unflattening
`{"a.0.b": 1, "a.2.c": 2}` puts `{}` (not Null) at index 1. -/
theorem unflatten_intermediate_pad_is_empty_mapping :
    unflatten [("a.0.b", JValue.num 1), ("a.2.c", JValue.num 2)] "."
      = some (JValue.obj [("a", JValue.arr [JValue.obj [("b", JValue.num 1)], JValue.obj [],
          JValue.obj [("c", JValue.num 2)]])])
    ∧ JValue.obj [("a", JValue.arr [JValue.obj [("b", JValue.num 1)], JValue.obj [],
          JValue.obj [("c", JValue.num 2)]])]
      ≠ JValue.obj [("a", JValue.arr [JValue.obj [("b", JValue.num 1)], JValue.null,
          JValue.obj [("c", JValue.num 2)]])] :=
  ⟨rfl, by simp⟩

/-- C9 witness: the scalar-values theorem applied at a concrete entry of a
concrete flatten call. -/
theorem flatten_values_scalar_witness :
    (("a", JValue.str "x") : String × JValue).2.isScalar = true :=
  flatten_values_scalar [("a", JValue.str "x")] "." ("a", JValue.str "x")
    (by
      have he : flatten [("a", JValue.str "x")] "." none = [("a", JValue.str "x")] := by
        simp [flatten, flattenObjAcc, dinsert, atMaxDepth]
      rw [he]
      exact List.mem_singleton.mpr rfl)
